import Mathlib

/-!
Verification of the Volunteer-Scheduler-V2 core module (`Scheduler2.py`).

The development shallowly embeds the module's data model and operations:

* an input table (`Table`) models a pandas `DataFrame`: a header row plus
  cell rows, where a cell is `Option String` (`none` models a missing
  value, i.e. `NaN`; `str()` of a present cell is the string itself and
  `str(NaN)`, as produced by `astype(str)`, is `"nan"`);
* `load_preferences` is translated statement by statement, including its
  two `ValueError` exits and the `IndexError` that the positional
  name fallback `df.iloc[:, 1]` raises on tables with fewer than two
  columns (`LoadErr` records which kind of exception escaped);
* Python dictionaries are modelled as association lists where assigning
  to an existing key replaces the entry in place (preserving its
  position) and assigning to a fresh key appends it, exactly the
  observable insertion-order semantics of `dict`;
* the CP-SAT solver call in `solve_schedule` is modelled abstractly: the
  constraint system actually posted to the model is embedded verbatim as
  the predicate `Feasible`, a returned schedule (`SolveReturns`) is the
  extraction loop applied to any assignment of the decision variables
  that satisfies every posted constraint, and the `RuntimeError` branch
  (`SolveRaises`) fires exactly when no assignment satisfies them, i.e.
  the solver is treated as a sound and complete decision procedure for
  feasibility (the objective only selects among feasible assignments and
  a merely `FEASIBLE` status is accepted by the code, so no claim below
  depends on optimality);
* `compute_breakdown` is translated with its two possible `KeyError`
  exits (a schedule name absent from `prefs_map`, and `ord_map[i]` for
  `i ≥ 5`) surfaced through `Except`; the `f"{pct:.1f}%"` rendering of a
  percentage is presentation-layer formatting, so the percentage is kept
  as the exact rational that is being formatted.

String primitives (`lower`, `strip`, `startswith`, substring test,
lexicographic order) are re-implemented over `List Char` so that every
definition evaluates by kernel reduction on concrete inputs.
-/

/-! ## String primitives (ASCII semantics of the Python string methods) -/

/-- Model of Python `str.lower()`. -/
def lowerStr (s : String) : String := String.mk (s.data.map Char.toLower)

/-- Model of Python `str.strip()`: drop leading and trailing whitespace. -/
def trimStr (s : String) : String :=
  String.mk (((s.data.dropWhile Char.isWhitespace).reverse.dropWhile Char.isWhitespace).reverse)

/-- Model of Python `str.startswith(pre)`. -/
def startsWithStr (s pre : String) : Bool := pre.data.isPrefixOf s.data

/-- Model of the Python substring test `needle in hay`. -/
def containsSub (hay needle : String) : Bool :=
  hay.data.tails.any (fun t => needle.data.isPrefixOf t)

/-- Code-point comparison of characters lifted to lists, as Python compares strings. -/
def charListLe : List Char → List Char → Bool
  | [], _ => true
  | _ :: _, [] => false
  | a :: as, b :: bs => if a = b then charListLe as bs else decide (a < b)

/-- Model of Python string `<=`. -/
def strLeB (a b : String) : Bool := charListLe a.data b.data

/-- Insertion step of the sort used to model Python `sorted`. -/
def insertSorted (s : String) : List String → List String
  | [] => [s]
  | t :: ts => if strLeB s t then s :: t :: ts else t :: insertSorted s ts

/-- Model of Python `sorted` on a list of strings. -/
def sortStrings (l : List String) : List String := l.foldr insertSorted []

/-- First-occurrence deduplication, worker: `seen` are the values already kept.
Models the set comprehension in `load_preferences` (only membership in the
result is ever relied on; the result is sorted immediately afterwards). -/
def pyDedupAux (seen : List String) : List String → List String
  | [] => []
  | v :: vs => if v ∈ seen then pyDedupAux seen vs else v :: pyDedupAux (v :: seen) vs

/-- First-occurrence deduplication of a list of strings. -/
def pyDedup (l : List String) : List String := pyDedupAux [] l

/-! ## Python `dict` as an association list -/

/-- Model of Python `d[k]` returning `none` when the key is absent (the call
sites where CPython would raise `KeyError` handle the `none` case
explicitly): the value of the first entry whose key matches. -/
def dictGet [BEq α] : List (α × β) → α → Option β
  | [], _ => none
  | p :: ps, k => if p.1 == k then some p.2 else dictGet ps k

/-- Model of Python `d[k] = v`: replace the first entry with key `k` in
place, or append a fresh entry, preserving insertion order. -/
def dictSet [BEq α] : List (α × β) → α → β → List (α × β)
  | [], k, v => [(k, v)]
  | p :: ps, k, v => if p.1 == k then (k, v) :: ps else p :: dictSet ps k v

/-! ## Data loading (`load_preferences`) -/

/-- Model of a pandas `DataFrame`: column headers plus rows of optional cells. -/
structure Table where
  headers : List String
  rows : List (List (Option String))

/-- Exception kinds that can escape `load_preferences`: `ValueError`
(the "DataError" of the specification) with its message, or the
`IndexError` raised by `df.iloc[:, 1]` in the positional name fallback. -/
inductive LoadErr where
  | valueError (msg : String)
  | indexError
deriving DecidableEq, Repr

/-- Model of `str(v)` applied to a raw cell: a missing value prints as `"nan"`. -/
def cellStr : Option String → String
  | none => "nan"
  | some s => s

/-- Model of `cols_lower[key]` where `cols_lower = {c.lower(): c for c in df.columns}`:
the dict comprehension lets the last column with a given lowercased name win. -/
def colsLowerGet (headers : List String) (key : String) : Option String :=
  (headers.filter (fun h => lowerStr h = key)).getLast?

/-- Model of `row[h]`, label-based cell access: the cell under the first
column whose header equals `h`. -/
def cellByLabel (headers : List String) (row : List (Option String)) (h : String) :
    Option String :=
  match headers.findIdx? (fun c => c = h) with
  | some i => row.getD i none
  | none => none

/-- Cell access through `cols_lower`: `row[cols_lower[key]]`. -/
def cellByLower (headers : List String) (row : List (Option String)) (key : String) :
    Option String :=
  match colsLowerGet headers key with
  | some h => cellByLabel headers row h
  | none => none

/-- Name-resolution branch of `load_preferences`: returns the function that
computes the `Name` column entry of a row, or `none` when every header test
fails and the table has fewer than two columns, in which case
`df.iloc[:, 1]` raises `IndexError`. -/
def nameFnOf (headers : List String) : Option (List (Option String) → String) :=
  if (colsLowerGet headers "first name").isSome && (colsLowerGet headers "last name").isSome then
    some (fun row =>
      cellStr (cellByLower headers row "first name") ++ " " ++
      cellStr (cellByLower headers row "last name"))
  else if (colsLowerGet headers "firstname").isSome && (colsLowerGet headers "lastname").isSome then
    some (fun row =>
      cellStr (cellByLower headers row "firstname") ++ " " ++
      cellStr (cellByLower headers row "lastname"))
  else if (colsLowerGet headers "name").isSome then
    some (fun row => cellStr (cellByLower headers row "name"))
  else if 2 ≤ headers.length then
    some (fun row => cellStr (row.getD 0 none) ++ " " ++ cellStr (row.getD 1 none))
  else
    none

/-- Role classification of one row: case-insensitive substring matching on
the stripped role cell, with precedence mentor > mentee > volunteer. -/
def roleOfCell (c : Option String) : String :=
  let rv := lowerStr (trimStr (cellStr c))
  if containsSub rv "mentor" then "mentor"
  else if containsSub rv "mentee" then "mentee"
  else "volunteer"

/-- Preference-column test: header starts (case-insensitively) with
`"pref"` or `"availability"`. -/
def isPrefCol (c : String) : Bool :=
  startsWithStr (lowerStr c) "pref" || startsWithStr (lowerStr c) "availability"

/-- Fixed per-shift capacity `MAX_PER_SHIFT` of `Scheduler2.py`. -/
def MAX_PER_SHIFT : Nat := 3

/-- Lexicographic weight table `LEX_WEIGHTS` of `Scheduler2.py`. -/
def LEX_WEIGHTS : List (Nat × Nat) := [(1, 100000), (2, 10000), (3, 1000), (4, 100), (5, 10)]

/-- Fallback weight `FALLBACK_WEIGHT` of `Scheduler2.py`. -/
def FALLBACK_WEIGHT : Nat := 1

/-- Model of `LEX_WEIGHTS.get(rank, FALLBACK_WEIGHT)`. -/
def lexGet (rank : Nat) : Nat :=
  ((LEX_WEIGHTS.find? (fun p => p.1 == rank)).map (fun p => p.2)).getD FALLBACK_WEIGHT

/-- Index of the last occurrence of `s` in `l` (`0` when `s` is absent);
the weight loop of `load_preferences` stores, for a duplicated slot, the
weight of this occurrence, because each later assignment overwrites the
dict entry. -/
def lastIdxOf : List String → String → Nat
  | [], _ => 0
  | _ :: rest, s => if s ∈ rest then lastIdxOf rest s + 1 else 0

/-- Weight-assignment loop `for rank, slot in enumerate(prefs, start=1):
weights[(name, slot)] = LEX_WEIGHTS.get(rank, FALLBACK_WEIGHT)`. -/
def setPrefWeights (name : String) :
    List String → Nat → List ((String × String) × Nat) → List ((String × String) × Nat)
  | [], _, w => w
  | slot :: rest, rank, w => setPrefWeights name rest (rank + 1) (dictSet w (name, slot) (lexGet rank))

/-- Weight matrix built from every entry of `prefs_map`. -/
def buildPrefWeights (pm : List (String × List String)) (w : List ((String × String) × Nat)) :
    List ((String × String) × Nat) :=
  pm.foldl (fun acc e => setPrefWeights e.1 e.2 1 acc) w

/-- Inner loop of the fallback fill of `load_preferences`: `for slot in
shifts: if (name, slot) not in weights: weights[(name, slot)] =
FALLBACK_WEIGHT`. -/
def fillShift (name : String) :
    List String → List ((String × String) × Nat) → List ((String × String) × Nat)
  | [], w => w
  | slot :: rest, w =>
    fillShift name rest
      (if (dictGet w (name, slot)).isSome then w else dictSet w (name, slot) FALLBACK_WEIGHT)

/-- Fallback fill `for name in volunteers: for slot in shifts: ...` of
`load_preferences`. -/
def fillFallback :
    List String → List String → List ((String × String) × Nat) → List ((String × String) × Nat)
  | [], _, w => w
  | name :: rest, shifts, w => fillFallback rest shifts (fillShift name shifts w)

/-- Body of the row loop of `load_preferences`: update the `roles` and
`prefs_map` dicts from one row (`acc.1` is `roles`, `acc.2` is `prefs_map`). -/
def rowStep (headers : List String) (role_col : String) (pref_cols : List String)
    (nameFn : List (Option String) → String)
    (acc : List (String × String) × List (String × List String))
    (row : List (Option String)) : List (String × String) × List (String × List String) :=
  (dictSet acc.1 (nameFn row) (roleOfCell (cellByLabel headers row role_col)),
   dictSet acc.2 (nameFn row) (pref_cols.filterMap (fun c => cellByLabel headers row c)))

/-- Result record of `load_preferences`. -/
structure LoadResult where
  volunteers : List String
  roles : List (String × String)
  shifts : List String
  weights : List ((String × String) × Nat)
  prefs_map : List (String × List String)

instance : Inhabited LoadResult := ⟨⟨[], [], [], [], []⟩⟩

/-- Shallow embedding of `load_preferences(df)` from `Scheduler2.py`,
including the order in which its exceptions can be raised: the positional
name fallback may raise `IndexError` before the role-column check, then a
missing role column and missing preference columns raise `ValueError`. -/
def load_preferences (t : Table) : Except LoadErr LoadResult :=
  match nameFnOf t.headers with
  | none => .error .indexError
  | some nameFn =>
    match colsLowerGet t.headers "role" with
    | none => .error (.valueError "Missing 'Role' column.")
    | some role_col =>
      let volunteers := t.rows.map nameFn
      let pref_cols := t.headers.filter isPrefCol
      if pref_cols.isEmpty then .error (.valueError "No preference columns detected.")
      else
        let rp := t.rows.foldl (rowStep t.headers role_col pref_cols nameFn) ([], [])
        let shifts := sortStrings (pyDedup ((rp.2.map (fun e => e.2)).flatten))
        let weights := fillFallback volunteers shifts (buildPrefWeights rp.2 [])
        .ok ⟨volunteers, rp.1, shifts, weights, rp.2⟩

/-- Total accessor used to name the successful result of `load_preferences`
on concrete tables. -/
def loadOk (t : Table) : LoadResult :=
  match load_preferences t with
  | .ok r => r
  | .error _ => default

/-! ## Solver model (`solve_schedule`) -/

/-- Model of `roles[v]` as read by `solve_schedule` (total with a default
that is never hit on data produced by `load_preferences`, where every
volunteer name is a key of `roles`). -/
def roleLookup (roles : List (String × String)) (v : String) : String :=
  (dictGet roles v).getD ""

/-- Model of `weights[(v, s)]` as read by `solve_schedule` (total with a
default that is never hit on data produced by `load_preferences`, whose
weight table covers all of `volunteers × shifts`). -/
def weightLookup (w : List ((String × String) × Nat)) (v s : String) : Nat :=
  (dictGet w (v, s)).getD 0

/-- The list `mentees = [v for v in volunteers if roles[v] == 'mentee']`. -/
def menteesOf (vols : List String) (roles : List (String × String)) : List String :=
  vols.filter (fun v => roleLookup roles v == "mentee")

/-- The list `mentors = [v for v in volunteers if roles[v] == 'mentor']`. -/
def mentorsOf (vols : List String) (roles : List (String × String)) : List String :=
  vols.filter (fun v => roleLookup roles v == "mentor")

/-- Constraint system posted by `solve_schedule` to the CP-SAT model, for an
assignment `x` of the decision variables `x[(v, s)]` and `y` of the
indicator variables `y[s]`:
each volunteer is in exactly one shift, each shift holds at most
`MAX_PER_SHIFT` volunteers (duplicate rows of `volunteers` are counted as
often as they occur, just as in the posted linear sums), and, only when
both mentees and mentors exist, `y[s]` is linked to mentee presence and
forces a mentor.  A solution returned with `OPTIMAL` or `FEASIBLE` status
satisfies exactly these constraints. -/
def Feasible (vols : List String) (roles : List (String × String)) (shifts : List String)
    (x : String → String → Bool) (y : String → Bool) : Prop :=
  (∀ v ∈ vols, shifts.countP (fun s => x v s) = 1) ∧
  (∀ s ∈ shifts, vols.countP (fun v => x v s) ≤ MAX_PER_SHIFT) ∧
  (menteesOf vols roles ≠ [] → mentorsOf vols roles ≠ [] → ∀ s ∈ shifts,
    (y s = true → 1 ≤ (menteesOf vols roles).countP (fun v => x v s)) ∧
    (y s = false → (menteesOf vols roles).countP (fun v => x v s) = 0) ∧
    (y s = true → 1 ≤ (mentorsOf vols roles).countP (fun v => x v s)))

instance (vols : List String) (roles : List (String × String)) (shifts : List String)
    (x : String → String → Bool) (y : String → Bool) :
    Decidable (Feasible vols roles shifts x y) := by
  unfold Feasible
  infer_instance

/-- One assignment record `{'Name': v, 'Role': roles[v], 'Fallback':
weights[(v, s)] == FALLBACK_WEIGHT}` emitted by `solve_schedule`. -/
structure AssignRec where
  Name : String
  Role : String
  Fallback : Bool
deriving DecidableEq, Repr

/-- Extraction loop of `solve_schedule`: `schedule = {s: [] for s in shifts}`
followed by appending a record for every true decision variable, iterating
the variable dict in insertion order (first occurrence of each duplicate
volunteer name, then shifts in order). -/
def extractSchedule (vols : List String) (roles : List (String × String))
    (shifts : List String) (w : List ((String × String) × Nat))
    (x : String → String → Bool) : List (String × List AssignRec) :=
  shifts.map (fun s => (s, ((pyDedup vols).filter (fun v => x v s)).map
    (fun v => ⟨v, roleLookup roles v, weightLookup w v s == FALLBACK_WEIGHT⟩)))

/-- Relation "`solve_schedule` can return `sched`": some assignment of the
decision variables satisfies every posted constraint (so the solver can
report `OPTIMAL`/`FEASIBLE`) and `sched` is the extraction of that
assignment. -/
def SolveReturns (vols : List String) (roles : List (String × String))
    (shifts : List String) (w : List ((String × String) × Nat))
    (sched : List (String × List AssignRec)) : Prop :=
  ∃ x y, Feasible vols roles shifts x y ∧ sched = extractSchedule vols roles shifts w x

/-- Relation "`solve_schedule` raises `RuntimeError('No feasible schedule
found.')`": no assignment of the decision variables satisfies the posted
constraints, so the status can be neither `OPTIMAL` nor `FEASIBLE`. -/
def SolveRaises (vols : List String) (roles : List (String × String))
    (shifts : List String) : Prop :=
  ∀ x y, ¬ Feasible vols roles shifts x y

/-! ## Breakdown reporter (`compute_breakdown`) -/

/-- Keys of the `counts` dict of `compute_breakdown`, in insertion order;
`ord_map` maps indices `0..4` to the first five keys. -/
def BREAKDOWN_KEYS : List String :=
  ["1st availability", "2nd availability", "3rd availability", "4th availability",
   "5th availability", "Fallback (outside prefs)"]

/-- Increment of bucket `i` in the counts vector. -/
def bump (counts : List Nat) (i : Nat) : List Nat :=
  counts.set i (counts.getD i 0 + 1)

/-- Classification of a single assignment record by `compute_breakdown`:
`prefs = prefs_map[name]` raises `KeyError` when the name is absent;
when the assigned slot occurs in `prefs`, `counts[ord_map[prefs.index(slot)]]`
raises `KeyError` when the first-occurrence index is 5 or more, and
otherwise increments the bucket of that index; an absent slot increments
the fallback bucket. -/
def breakdownStep (pm : List (String × List String)) (slot : String) (a : AssignRec)
    (counts : List Nat) : Except String (List Nat) :=
  match dictGet pm a.Name with
  | none => .error "KeyError: prefs_map"
  | some prefs =>
    if slot ∈ prefs then
      if prefs.findIdx (fun p => p == slot) < 5 then
        .ok (bump counts (prefs.findIdx (fun p => p == slot)))
      else .error "KeyError: ord_map"
    else .ok (bump counts 5)

/-- Inner loop of `compute_breakdown` over the records of one slot. -/
def countItems (pm : List (String × List String)) (slot : String) :
    List AssignRec → List Nat → Except String (List Nat)
  | [], counts => .ok counts
  | a :: rest, counts => do countItems pm slot rest (← breakdownStep pm slot a counts)

/-- Outer loop of `compute_breakdown` over the schedule entries. -/
def countSchedule (pm : List (String × List String)) :
    List (String × List AssignRec) → List Nat → Except String (List Nat)
  | [], counts => .ok counts
  | (slot, items) :: rest, counts => do countSchedule pm rest (← countItems pm slot items counts)

/-- The quantity `total = sum(len(items) for items in schedule.values())`. -/
def totalAssignments (sched : List (String × List AssignRec)) : Nat :=
  (sched.map (fun p => p.2.length)).sum

/-- One row of the breakdown table; `Percentage` is the exact rational
`v / total * 100` (or `0` when there are no assignments) that the code then
formats as `f"{pct:.1f}%"`. -/
structure BRow where
  Preference : String
  Count : Nat
  Percentage : Rat
deriving DecidableEq, Repr

/-- Shallow embedding of `compute_breakdown(schedule, prefs_map)`, with the
two `KeyError` exits surfaced as `Except.error` (the quantity `total` that
the code computes up front before the loop is written out inline; it is a
pure function of the schedule). -/
def compute_breakdown (sched : List (String × List AssignRec))
    (pm : List (String × List String)) : Except String (List BRow) := do
  let counts ← countSchedule pm sched [0, 0, 0, 0, 0, 0]
  .ok ((BREAKDOWN_KEYS.zip counts).map
    (fun kc => ⟨kc.1, kc.2,
      if totalAssignments sched = 0 then 0
      else (kc.2 : Rat) / (totalAssignments sched : Rat) * 100⟩))

/-! ## Property checkers (decidable statements of the claimed invariants) -/

/-- Test whether an assignment list contains a record for the given name. -/
def nameInItems (items : List AssignRec) (v : String) : Bool :=
  items.any (fun a => a.Name == v)

/-- Number of shift entries of a schedule whose assignment list mentions `v`. -/
def assignedShiftCount (sched : List (String × List AssignRec)) (v : String) : Nat :=
  sched.countP (fun p => nameInItems p.2 v)

/-- Total-coverage check: every volunteer name appears in exactly one
shift's assignment list. -/
def coversAllOnce (sched : List (String × List AssignRec)) (vols : List String) : Bool :=
  vols.all (fun v => assignedShiftCount sched v == 1)

/-- Capacity check: every shift's assignment list has at most
`MAX_PER_SHIFT` records. -/
def capacityRespected (sched : List (String × List AssignRec)) : Bool :=
  sched.all (fun p => decide (p.2.length ≤ MAX_PER_SHIFT))

/-- Mentor-coverage check: every shift entry that holds a record with role
`"mentee"` also holds a record with role `"mentor"`. -/
def mentorCovered (sched : List (String × List AssignRec)) : Bool :=
  sched.all (fun p =>
    !(p.2.any (fun a => a.Role == "mentee")) || p.2.any (fun a => a.Role == "mentor"))

/-- Test for the `ValueError` ("DataError") outcome of `load_preferences`. -/
def isValueError (r : Except LoadErr LoadResult) : Bool :=
  match r with
  | .error (.valueError _) => true
  | _ => false

/-- Header condition under which the name-resolution step of
`load_preferences` completes without touching `df.iloc[:, 1]` out of
bounds: some recognized name header combination exists, or the table has
at least two columns for the positional fallback. -/
def nameResolvable (t : Table) : Bool :=
  ((colsLowerGet t.headers "first name").isSome && (colsLowerGet t.headers "last name").isSome) ||
  ((colsLowerGet t.headers "firstname").isSome && (colsLowerGet t.headers "lastname").isSome) ||
  (colsLowerGet t.headers "name").isSome || decide (2 ≤ t.headers.length)

/-- Test for a role column: some header lowercases to `"role"`. -/
def hasRoleCol (t : Table) : Bool := (colsLowerGet t.headers "role").isSome

/-- Test for preference columns: some header passes `isPrefCol`. -/
def hasPrefCols (t : Table) : Bool := t.headers.any isPrefCol

/-! ## Concrete instances used to witness or refute the claimed properties -/

/-- Table with one ordinary volunteer and one shift. -/
def tblOneVol : Table := ⟨["Name", "Role", "Pref 1"], [[some "Vala", some "volunteer", some "A"]]⟩

/-- Decision-variable assignment putting that volunteer into shift "A". -/
def xOneVol : String → String → Bool := fun v s => v == "Vala" && s == "A"

/-- Schedule extracted from `tblOneVol` under `xOneVol`. -/
def schedOneVol : List (String × List AssignRec) :=
  extractSchedule (loadOk tblOneVol).volunteers (loadOk tblOneVol).roles
    (loadOk tblOneVol).shifts (loadOk tblOneVol).weights xOneVol

/-- Three volunteers, one shift, all assigned to it (capacity boundary). -/
def volsThree : List String := ["Pia", "Quin", "Rae"]

/-- Roles for `volsThree`. -/
def rolesThree : List (String × String) :=
  [("Pia", "volunteer"), ("Quin", "volunteer"), ("Rae", "volunteer")]

/-- Single shift for `volsThree`. -/
def shiftsOne : List String := ["A"]

/-- Assignment placing every volunteer into shift "A". -/
def xAllA : String → String → Bool := fun _ s => s == "A"

/-- Schedule extracted for the three-volunteer instance. -/
def schedThree : List (String × List AssignRec) :=
  extractSchedule volsThree rolesThree shiftsOne [] xAllA

/-- Table with a single mentee and no mentor at all. -/
def tblLoneMentee : Table :=
  ⟨["Name", "Role", "Pref 1"], [[some "Mena", some "mentee", some "X"]]⟩

/-- Assignment putting the lone mentee into shift "X". -/
def xLoneMentee : String → String → Bool := fun v s => v == "Mena" && s == "X"

/-- Schedule extracted from `tblLoneMentee` under `xLoneMentee`. -/
def schedLoneMentee : List (String × List AssignRec) :=
  extractSchedule (loadOk tblLoneMentee).volunteers (loadOk tblLoneMentee).roles
    (loadOk tblLoneMentee).shifts (loadOk tblLoneMentee).weights xLoneMentee

/-- Table with one mentor and one mentee who both want shift "Y". -/
def tblPair : Table :=
  ⟨["Name", "Role", "Pref 1"],
   [[some "Tee", some "mentee", some "Y"], [some "Tor", some "mentor", some "Y"]]⟩

/-- Assignment putting both members of `tblPair` into shift "Y". -/
def xPair : String → String → Bool := fun _ s => s == "Y"

/-- Schedule extracted from `tblPair` under `xPair`. -/
def schedPair : List (String × List AssignRec) :=
  extractSchedule (loadOk tblPair).volunteers (loadOk tblPair).roles
    (loadOk tblPair).shifts (loadOk tblPair).weights xPair

/-- Scenario C table: one mentee whose sole preference is "X", one mentor
who lists only "Y", and no other mentor. -/
def tblScenC : Table :=
  ⟨["Name", "Role", "Pref 1"],
   [[some "Mia", some "mentee", some "X"], [some "Max", some "mentor", some "Y"]]⟩

/-- Assignment for `tblScenC`: the mentee joins the mentor in shift "Y". -/
def xScenC : String → String → Bool := fun _ s => s == "Y"

/-- Indicator-variable assignment for `tblScenC`: only "Y" holds a mentee. -/
def yScenC : String → Bool := fun s => s == "Y"

/-- Schedule extracted from `tblScenC` under `xScenC`. -/
def schedScenC : List (String × List AssignRec) :=
  extractSchedule (loadOk tblScenC).volunteers (loadOk tblScenC).roles
    (loadOk tblScenC).shifts (loadOk tblScenC).weights xScenC

/-- Table whose single volunteer lists the same shift "A" at ranks 1 and 2. -/
def tblDupTwo : Table :=
  ⟨["Name", "Role", "Pref 1", "Pref 2"],
   [[some "Ann", some "volunteer", some "A", some "A"]]⟩

/-- Table whose single volunteer has duplicate-free preferences [A, B]. -/
def tblNodup : Table :=
  ⟨["Name", "Role", "Pref 1", "Pref 2"],
   [[some "Ben", some "volunteer", some "A", some "B"]]⟩

/-- Table whose single volunteer lists shift "A" at ranks 1, 2 and 3. -/
def tblDupThree : Table :=
  ⟨["Name", "Role", "Pref 1", "Pref 2", "Pref 3"],
   [[some "Bob", some "volunteer", some "A", some "A", some "A"]]⟩

/-- Table whose single volunteer lists shift "X" at exactly ranks 1 and 3. -/
def tblTwoOcc : Table :=
  ⟨["Name", "Role", "Pref 1", "Pref 2", "Pref 3"],
   [[some "Cam", some "volunteer", some "X", some "B", some "X"]]⟩

/-- Schedule with one assignment whose shift is the volunteer's 6th-listed
preference (first occurrence at 0-indexed position 5). -/
def schedSixth : List (String × List AssignRec) := [("X", [⟨"Wyn", "volunteer", true⟩])]

/-- Preference map in which "Wyn" lists "X" sixth. -/
def pmSixth : List (String × List String) := [("Wyn", ["a", "b", "c", "d", "e", "X"])]

/-- One-assignment schedule used to exercise `compute_breakdown` success. -/
def schedSmall : List (String × List AssignRec) := [("A", [⟨"Vic", "volunteer", false⟩])]

/-- Preference map for `schedSmall`. -/
def pmSmall : List (String × List String) := [("Vic", ["A"])]

/-- Breakdown rows computed for `schedSmall`. -/
def rowsSmall : List BRow := (compute_breakdown schedSmall pmSmall).toOption.getD []

/-- Table whose only column is the role column (fewer than two columns and
no recognized name header). -/
def tblRoleOnly : Table := ⟨["Role"], []⟩

/-- Well-formed table used to witness the successful load path. -/
def tblGood : Table :=
  ⟨["Name", "Role", "Pref 1"], [[some "Gia", some "mentor", some "S"]]⟩

/-- One-column table with an unrecognized header. -/
def tblOneCol : Table := ⟨["x"], [[some "v"]]⟩

/-! ## Concrete evaluations of the embedding

These evaluation theorems pin the behaviour of the embedded functions on
small inputs against the behaviour of the Python module (dict overwrite on
a duplicated name, the three exception exits, role substring matching,
preference-column collection order). -/

theorem eval_load_simple :
    load_preferences ⟨["Name", "Role", "Pref 1"],
      [[some "Ann", some "Peer Mentor", some "Mon 10:00-14:00"]]⟩ =
    .ok ⟨["Ann"], [("Ann", "mentor")], ["Mon 10:00-14:00"],
      [(("Ann", "Mon 10:00-14:00"), 100000)], [("Ann", ["Mon 10:00-14:00"])]⟩ := rfl

theorem eval_load_one_column :
    load_preferences ⟨["Role"], []⟩ = .error .indexError := rfl

theorem eval_load_missing_role :
    load_preferences ⟨["Name", "Pref 1"], []⟩ =
    .error (.valueError "Missing 'Role' column.") := rfl

theorem eval_load_no_pref_cols :
    load_preferences ⟨["First Name", "Last Name", "Role"],
      [[some "A", some "B", some "x"]]⟩ =
    .error (.valueError "No preference columns detected.") := rfl

theorem eval_load_duplicate_name :
    load_preferences ⟨["Name", "Role", "Availability A", "Pref B"],
      [[some "Jo", none, some "S2", some "S1"], [some "Jo", some "mentee", none, some "S3"]]⟩ =
    .ok ⟨["Jo", "Jo"], [("Jo", "mentee")], ["S3"],
      [(("Jo", "S3"), 100000)], [("Jo", ["S3"])]⟩ := rfl

theorem eval_count_second_choice :
    countSchedule [("V", ["A", "B"])] [("B", [⟨"V", "volunteer", false⟩])]
      [0, 0, 0, 0, 0, 0] = .ok [0, 1, 0, 0, 0, 0] := rfl

theorem eval_count_sixth_choice :
    countSchedule [("V", ["a", "b", "c", "d", "e", "X"])]
      [("X", [⟨"V", "volunteer", true⟩])] [0, 0, 0, 0, 0, 0] =
    .error "KeyError: ord_map" := rfl

theorem eval_breakdown_empty :
    compute_breakdown [] [] = .ok (BREAKDOWN_KEYS.map (fun k => ⟨k, 0, 0⟩)) := rfl

/-! ## Helper lemmas: deduplication -/

theorem mem_pyDedupAux (a : String) (l : List String) : ∀ seen,
    (a ∈ pyDedupAux seen l ↔ a ∈ l ∧ a ∉ seen) := by
  induction l with
  | nil => intro seen; simp [pyDedupAux]
  | cons v vs ih =>
    intro seen
    simp only [pyDedupAux]
    by_cases h : v ∈ seen
    · simp only [h, if_true, ih, List.mem_cons]
      constructor
      · rintro ⟨h1, h2⟩; exact ⟨Or.inr h1, h2⟩
      · rintro ⟨h1 | h1, h2⟩
        · subst h1; exact absurd h h2
        · exact ⟨h1, h2⟩
    · simp only [h, if_false, List.mem_cons, ih]
      by_cases hav : a = v
      · subst hav; simp [h]
      · simp [hav]

theorem mem_pyDedup (a : String) (l : List String) : a ∈ pyDedup l ↔ a ∈ l := by
  simp [pyDedup, mem_pyDedupAux]

theorem pyDedupAux_sublist (l : List String) : ∀ seen, (pyDedupAux seen l).Sublist l := by
  induction l with
  | nil => intro seen; simp [pyDedupAux]
  | cons v vs ih =>
    intro seen
    simp only [pyDedupAux]
    by_cases h : v ∈ seen
    · simp only [h, if_true]
      exact (ih seen).trans (List.sublist_cons_self v vs)
    · simp only [h, if_false]
      exact List.cons_sublist_cons.mpr (ih (v :: seen))

theorem pyDedup_sublist (l : List String) : (pyDedup l).Sublist l :=
  pyDedupAux_sublist l []

/-! ## Helper lemmas: dictionaries -/

theorem dictGet_dictSet [BEq α] [LawfulBEq α] (d : List (α × β)) (k k' : α) (v : β) :
    dictGet (dictSet d k v) k' = if k' == k then some v else dictGet d k' := by
  induction d with
  | nil =>
    by_cases h : k' = k
    · subst h; simp [dictGet, dictSet]
    · simp [dictGet, dictSet, beq_eq_false_iff_ne.mpr h, beq_eq_false_iff_ne.mpr (Ne.symm h)]
  | cons p ps ih =>
    simp only [dictSet]
    by_cases hak : p.1 = k
    · simp only [beq_iff_eq.mpr hak, if_true, dictGet]
      by_cases hkk : k' = k
      · subst hkk; simp
      · simp only [beq_eq_false_iff_ne.mpr hkk, beq_eq_false_iff_ne.mpr (Ne.symm hkk),
          Bool.false_eq_true, if_false]
        have : (p.1 == k') = false := beq_eq_false_iff_ne.mpr (by rw [hak]; exact Ne.symm hkk)
        simp [this]
    · simp only [beq_eq_false_iff_ne.mpr hak, Bool.false_eq_true, if_false, dictGet, ih]
      by_cases hpk : p.1 = k'
      · have hkk : (k' == k) = false := beq_eq_false_iff_ne.mpr (by rw [← hpk]; exact hak)
        simp [beq_iff_eq.mpr hpk, hkk]
      · simp [beq_eq_false_iff_ne.mpr hpk]

theorem dictGet_keys_isSome [BEq α] [LawfulBEq α] (d : List (α × β)) (k : α) :
    (dictGet d k).isSome ↔ k ∈ d.map Prod.fst := by
  induction d with
  | nil => simp [dictGet]
  | cons p ps ih =>
    simp only [dictGet, List.map_cons, List.mem_cons]
    by_cases h : p.1 = k
    · simp [h]
    · simp [beq_eq_false_iff_ne.mpr h, ih, Ne.symm h]

theorem dictSet_keys [BEq α] [LawfulBEq α] (d : List (α × β)) (k : α) (v : β) :
    (dictSet d k v).map Prod.fst =
      if k ∈ d.map Prod.fst then d.map Prod.fst else d.map Prod.fst ++ [k] := by
  induction d with
  | nil => simp [dictSet]
  | cons p ps ih =>
    by_cases h : p.1 = k
    · simp [dictSet, beq_iff_eq.mpr h, h]
    · simp only [dictSet, beq_eq_false_iff_ne.mpr h, Bool.false_eq_true, if_false, List.map_cons,
        ih, List.mem_cons]
      by_cases h2 : k ∈ ps.map Prod.fst <;> simp [h2, Ne.symm h, ih]

theorem dictSet_keys_nodup [BEq α] [LawfulBEq α] (d : List (α × β)) (k : α) (v : β)
    (h : (d.map Prod.fst).Nodup) : ((dictSet d k v).map Prod.fst).Nodup := by
  rw [dictSet_keys]
  by_cases hk : k ∈ d.map Prod.fst
  · simpa [hk] using h
  · rw [if_neg hk]
    refine List.Nodup.append h (List.nodup_singleton k) ?_
    intro x hx hmem
    rw [List.mem_singleton] at hmem
    subst hmem
    exact hk hx

/-! ## Helper lemmas: occurrence indices -/

theorem mem_of_getElem_some (l : List String) (i : Nat) (s : String) (h : l[i]? = some s) :
    s ∈ l := by
  rcases List.getElem?_eq_some_iff.mp h with ⟨hi, he⟩
  exact he ▸ List.getElem_mem hi

theorem lastIdxOf_spec (l : List String) (s : String) (h : s ∈ l) :
    l[lastIdxOf l s]? = some s ∧ ∀ j, l[j]? = some s → j ≤ lastIdxOf l s := by
  induction l with
  | nil => cases h
  | cons a rest ih =>
    by_cases hr : s ∈ rest
    · have hs := ih hr
      simp only [lastIdxOf, hr, if_true]
      refine ⟨by simpa using hs.1, ?_⟩
      intro j hj
      cases j with
      | zero => omega
      | succ j2 =>
        have := hs.2 j2 (by simpa using hj)
        omega
    · have hs : s = a := by
        rcases List.mem_cons.mp h with h1 | h1
        · exact h1
        · exact absurd h1 hr
      simp only [lastIdxOf, hr, if_false]
      refine ⟨by simp [hs], ?_⟩
      intro j hj
      cases j with
      | zero => omega
      | succ j2 =>
        exfalso
        apply hr
        have hj2 : rest[j2]? = some s := by simpa using hj
        exact mem_of_getElem_some rest j2 s hj2

theorem lastIdxOf_nodup (l : List String) (hl : l.Nodup) (i : Nat) (s : String)
    (h : l[i]? = some s) : lastIdxOf l s = i := by
  rcases List.getElem?_eq_some_iff.mp h with ⟨hi, he⟩
  have hmem : s ∈ l := he ▸ List.getElem_mem hi
  have hspec := lastIdxOf_spec l s hmem
  rcases List.getElem?_eq_some_iff.mp hspec.1 with ⟨hj, hje⟩
  exact (@List.Nodup.getElem_inj_iff _ l hl (lastIdxOf l s) hj i hi).mp (by rw [hje, he])

theorem findIdx_first (l : List String) (s : String) (i : Nat) (hi : l[i]? = some s)
    (hfirst : ∀ j, j < i → l[j]? ≠ some s) : l.findIdx (fun p => p == s) = i := by
  induction l generalizing i with
  | nil => simp at hi
  | cons a rest ih =>
    cases i with
    | zero =>
      simp only [List.getElem?_cons_zero, Option.some.injEq] at hi
      subst hi
      simp [List.findIdx_cons]
    | succ i2 =>
      have ha : a ≠ s := by
        intro he
        exact hfirst 0 (Nat.succ_pos _) (by simp [he])
      have hrec := ih i2 (by simpa using hi)
        (fun j hj => by
          have := hfirst (j + 1) (by omega)
          simpa using this)
      simp [List.findIdx_cons, beq_eq_false_iff_ne.mpr ha, hrec]

/-! ## Helper lemmas: the weight table -/

theorem setPrefWeights_lookup (name : String) (prefs : List String) :
    ∀ rank w n s, dictGet (setPrefWeights name prefs rank w) (n, s) =
      if n = name ∧ s ∈ prefs then some (lexGet (rank + lastIdxOf prefs s))
      else dictGet w (n, s) := by
  induction prefs with
  | nil =>
    intro rank w n s
    simp [setPrefWeights]
  | cons slot rest ih =>
    intro rank w n s
    simp only [setPrefWeights, ih, dictGet_dictSet]
    by_cases hn : n = name
    · by_cases hsr : s ∈ rest
      · have hmem : s ∈ slot :: rest := List.mem_cons_of_mem _ hsr
        have harith : rank + 1 + lastIdxOf rest s = rank + (lastIdxOf rest s + 1) := by omega
        simp [hn, hsr, hmem, lastIdxOf, harith]
      · by_cases hss : s = slot
        · subst hss
          simp [hn, hsr, lastIdxOf, Prod.ext_iff]
        · have hnm : s ∉ slot :: rest := by
            simp [List.mem_cons, hss, hsr]
          simp [hn, hsr, hnm, Prod.ext_iff, hss]
    · simp [hn, Prod.ext_iff]

theorem buildPrefWeights_lookup (pm : List (String × List String)) :
    ∀ w n s, (pm.map Prod.fst).Nodup →
      dictGet (buildPrefWeights pm w) (n, s) =
        match dictGet pm n with
        | some prefs =>
            if s ∈ prefs then some (lexGet (1 + lastIdxOf prefs s)) else dictGet w (n, s)
        | none => dictGet w (n, s) := by
  induction pm with
  | nil =>
    intro w n s _
    simp [buildPrefWeights, dictGet]
  | cons e rest ih =>
    intro w n s hnd
    have hnd2 : (rest.map Prod.fst).Nodup := (List.nodup_cons.mp (by simpa using hnd)).2
    have hnotin : e.1 ∉ rest.map Prod.fst := (List.nodup_cons.mp (by simpa using hnd)).1
    show dictGet (buildPrefWeights rest (setPrefWeights e.1 e.2 1 w)) (n, s) = _
    rw [ih (setPrefWeights e.1 e.2 1 w) n s hnd2]
    by_cases hn : n = e.1
    · have hnotin2 : n ∉ rest.map Prod.fst := by rw [hn]; exact hnotin
      have hnone : dictGet rest n = none := by
        cases hopt : dictGet rest n with
        | none => rfl
        | some p => exact absurd ((dictGet_keys_isSome rest n).mp (by simp [hopt])) hnotin2
      have hfst : dictGet (e :: rest) n = some e.2 := by simp [dictGet, hn]
      rw [hnone, hfst, setPrefWeights_lookup]
      by_cases hs : s ∈ e.2 <;> simp [hs, hn]
    · have hfst : dictGet (e :: rest) n = dictGet rest n := by
        simp [dictGet, beq_eq_false_iff_ne.mpr (fun he => hn he.symm)]
      rw [hfst]
      cases hopt : dictGet rest n with
      | none => simp [setPrefWeights_lookup, hn]
      | some prefs => by_cases hs : s ∈ prefs <;> simp [setPrefWeights_lookup, hn, hs]

theorem fillShift_lookup (name : String) (shifts : List String) :
    ∀ w n s, dictGet (fillShift name shifts w) (n, s) =
      if n = name ∧ s ∈ shifts ∧ dictGet w (n, s) = none then some FALLBACK_WEIGHT
      else dictGet w (n, s) := by
  induction shifts with
  | nil =>
    intro w n s
    simp [fillShift]
  | cons slot rest ih =>
    intro w n s
    simp only [fillShift, ih]
    by_cases hc : (dictGet w (name, slot)).isSome = true
    · simp only [hc, if_true]
      by_cases hn : n = name
      · by_cases hws : dictGet w (n, s) = none
        · by_cases hss : s = slot
          · exfalso
            rw [hn, hss] at hws
            rw [hws] at hc
            simp at hc
          · by_cases hsr : s ∈ rest <;> simp [hn, hws, hss, hsr]
        · simp [hws]
      · simp [hn]
    · simp only [hc, Bool.false_eq_true, if_false, dictGet_dictSet]
      by_cases hn : n = name
      · by_cases hss : s = slot
        · have hwnone : dictGet w (name, slot) = none :=
            Option.not_isSome_iff_eq_none.mp (by simpa using hc)
          simp [hn, hss, Prod.ext_iff, hwnone, beq_iff_eq]
        · simp [hn, hss, Prod.ext_iff, beq_iff_eq]
      · simp [hn, Prod.ext_iff, beq_iff_eq]

theorem fillFallback_lookup (vols : List String) (shifts : List String) :
    ∀ w n s, dictGet (fillFallback vols shifts w) (n, s) =
      if n ∈ vols ∧ s ∈ shifts ∧ dictGet w (n, s) = none then some FALLBACK_WEIGHT
      else dictGet w (n, s) := by
  induction vols with
  | nil =>
    intro w n s
    simp [fillFallback]
  | cons name rest ih =>
    intro w n s
    simp only [fillFallback, ih, fillShift_lookup]
    by_cases hn1 : n = name
    · by_cases hs : s ∈ shifts
      · by_cases hw : dictGet w (n, s) = none
        · have hw2 : dictGet w (name, s) = none := by rw [← hn1]; exact hw
          simp [hn1, hs, hw, hw2]
        · have hw2 : ¬ dictGet w (name, s) = none := by rw [← hn1]; exact hw
          simp [hn1, hs, hw, hw2]
      · simp [hn1, hs]
    · by_cases hnr : n ∈ rest
      · by_cases hs : s ∈ shifts
        · by_cases hw : dictGet w (n, s) = none <;> simp [hn1, hnr, hs, hw]
        · simp [hn1, hnr, hs]
      · simp [hn1, hnr]

/-! ## Helper lemmas: the row loop and the shape of a successful load -/

theorem rowsFold_snd_nodup (headers : List String) (role_col : String)
    (pref_cols : List String) (nameFn : List (Option String) → String)
    (rows : List (List (Option String))) :
    ∀ acc : List (String × String) × List (String × List String),
      (acc.2.map Prod.fst).Nodup →
      (((rows.foldl (rowStep headers role_col pref_cols nameFn) acc).2).map Prod.fst).Nodup := by
  induction rows with
  | nil => intro acc h; exact h
  | cons r rs ih =>
    intro acc h
    exact ih _ (dictSet_keys_nodup _ _ _ h)

theorem rowsFold_snd_keys (headers : List String) (role_col : String)
    (pref_cols : List String) (nameFn : List (Option String) → String)
    (rows : List (List (Option String))) :
    ∀ acc : List (String × String) × List (String × List String),
      ((rows.foldl (rowStep headers role_col pref_cols nameFn) acc).2.map Prod.fst) ⊆
        acc.2.map Prod.fst ++ rows.map nameFn := by
  induction rows with
  | nil =>
    intro acc x hx
    simpa using hx
  | cons r rs ih =>
    intro acc x hx
    have hstep := ih (rowStep headers role_col pref_cols nameFn acc r) hx
    have hkeys : (rowStep headers role_col pref_cols nameFn acc r).2.map Prod.fst =
        if nameFn r ∈ acc.2.map Prod.fst then acc.2.map Prod.fst
        else acc.2.map Prod.fst ++ [nameFn r] := dictSet_keys _ _ _
    rw [hkeys] at hstep
    by_cases hmem : nameFn r ∈ acc.2.map Prod.fst
    · rw [if_pos hmem] at hstep
      rcases List.mem_append.mp hstep with h1 | h1
      · exact List.mem_append.mpr (Or.inl h1)
      · exact List.mem_append.mpr (Or.inr (List.mem_cons_of_mem _ h1))
    · rw [if_neg hmem] at hstep
      rcases List.mem_append.mp hstep with h1 | h1
      · rcases List.mem_append.mp h1 with h2 | h2
        · exact List.mem_append.mpr (Or.inl h2)
        · rw [List.mem_singleton] at h2
          subst h2
          exact List.mem_append.mpr (Or.inr (List.mem_cons_self _ _))
      · exact List.mem_append.mpr (Or.inr (List.mem_cons_of_mem _ h1))

theorem load_ok_elim (t : Table) (pd : LoadResult) (h : load_preferences t = .ok pd) :
    ∃ nameFn role_col,
      nameFnOf t.headers = some nameFn ∧
      colsLowerGet t.headers "role" = some role_col ∧
      (t.headers.filter isPrefCol).isEmpty = false ∧
      pd.volunteers = t.rows.map nameFn ∧
      pd.roles =
        (t.rows.foldl (rowStep t.headers role_col (t.headers.filter isPrefCol) nameFn) ([], [])).1 ∧
      pd.prefs_map =
        (t.rows.foldl (rowStep t.headers role_col (t.headers.filter isPrefCol) nameFn) ([], [])).2 ∧
      pd.shifts = sortStrings (pyDedup ((pd.prefs_map.map (fun e => e.2)).flatten)) ∧
      pd.weights = fillFallback pd.volunteers pd.shifts (buildPrefWeights pd.prefs_map []) := by
  unfold load_preferences at h
  cases hnf : nameFnOf t.headers with
  | none => rw [hnf] at h; cases h
  | some nameFn =>
    rw [hnf] at h
    cases hrc : colsLowerGet t.headers "role" with
    | none => rw [hrc] at h; cases h
    | some role_col =>
      rw [hrc] at h
      simp only at h
      by_cases hpc : (t.headers.filter isPrefCol).isEmpty
      · rw [if_pos hpc] at h; cases h
      · rw [if_neg hpc] at h
        cases h
        exact ⟨nameFn, role_col, rfl, rfl, by simpa using hpc, rfl, rfl, rfl, rfl, rfl⟩

theorem load_prefs_map_nodup (t : Table) (pd : LoadResult)
    (h : load_preferences t = .ok pd) : (pd.prefs_map.map Prod.fst).Nodup := by
  obtain ⟨nameFn, role_col, _, _, _, _, _, hpm, _, _⟩ := load_ok_elim t pd h
  rw [hpm]
  exact rowsFold_snd_nodup _ _ _ _ t.rows ([], []) (by simp)

theorem load_prefs_map_key_mem (t : Table) (pd : LoadResult)
    (h : load_preferences t = .ok pd) (n : String) (prefs : List String)
    (hk : dictGet pd.prefs_map n = some prefs) : n ∈ pd.volunteers := by
  obtain ⟨nameFn, role_col, _, _, _, hvol, _, hpm, _, _⟩ := load_ok_elim t pd h
  have hkey : n ∈ pd.prefs_map.map Prod.fst := (dictGet_keys_isSome _ _).mp (by simp [hk])
  rw [hpm] at hkey
  have hsub := rowsFold_snd_keys t.headers role_col (t.headers.filter isPrefCol) nameFn
    t.rows ([], []) hkey
  rw [hvol]
  simpa using hsub

theorem load_weights_lookup (t : Table) (pd : LoadResult)
    (h : load_preferences t = .ok pd) (n s : String) :
    dictGet pd.weights (n, s) =
      match dictGet pd.prefs_map n with
      | some prefs =>
          if s ∈ prefs then some (lexGet (1 + lastIdxOf prefs s))
          else if n ∈ pd.volunteers ∧ s ∈ pd.shifts then some FALLBACK_WEIGHT else none
      | none => if n ∈ pd.volunteers ∧ s ∈ pd.shifts then some FALLBACK_WEIGHT else none := by
  have hnd := load_prefs_map_nodup t pd h
  obtain ⟨nameFn, role_col, _, _, _, _, _, _, _, hw⟩ := load_ok_elim t pd h
  rw [hw, fillFallback_lookup, buildPrefWeights_lookup pd.prefs_map [] n s hnd]
  cases hopt : dictGet pd.prefs_map n with
  | none => simp [dictGet]
  | some prefs =>
    by_cases hs : s ∈ prefs
    · simp [hs]
    · simp [hs, dictGet]

/-! ## Helper lemmas: breakdown counting -/

theorem bump_length (counts : List Nat) (i : Nat) : (bump counts i).length = counts.length := by
  simp [bump]

theorem bump_sum (counts : List Nat) (i : Nat) (h : i < counts.length) :
    (bump counts i).sum = counts.sum + 1 := by
  induction counts generalizing i with
  | nil => cases h
  | cons c cs ih =>
    cases i with
    | zero => simp [bump, List.getD]; omega
    | succ j =>
      have hj : j < cs.length := by simpa using h
      have hrec := ih j hj
      show (c :: bump cs j).sum = (c :: cs).sum + 1
      simp only [List.sum_cons, hrec]
      omega

theorem breakdownStep_ok (pm : List (String × List String)) (slot : String) (a : AssignRec)
    (counts out : List Nat) (h : breakdownStep pm slot a counts = .ok out) :
    ∃ i, i < 6 ∧ out = bump counts i := by
  unfold breakdownStep at h
  split at h
  · cases h
  · split at h
    · split at h
      · cases h
        exact ⟨_, by omega, rfl⟩
      · cases h
    · cases h
      exact ⟨5, by omega, rfl⟩

theorem countItems_ok (pm : List (String × List String)) (slot : String)
    (items : List AssignRec) :
    ∀ counts out, countItems pm slot items counts = .ok out → counts.length = 6 →
      out.length = 6 ∧ out.sum = counts.sum + items.length := by
  induction items with
  | nil =>
    intro counts out h hlen
    cases h
    simp [hlen]
  | cons a rest ih =>
    intro counts out h hlen
    rw [countItems] at h
    cases hstep : breakdownStep pm slot a counts with
    | error e => rw [hstep] at h; cases h
    | ok c2 =>
      rw [hstep] at h
      obtain ⟨i, hi, hc2⟩ := breakdownStep_ok pm slot a counts c2 hstep
      have hlen2 : c2.length = 6 := by rw [hc2, bump_length]; exact hlen
      have hsum2 : c2.sum = counts.sum + 1 := by
        rw [hc2]; exact bump_sum counts i (by omega)
      obtain ⟨h1, h2⟩ := ih c2 out h hlen2
      refine ⟨h1, ?_⟩
      rw [h2, hsum2]
      simp only [List.length_cons]
      omega

theorem countSchedule_ok (pm : List (String × List String))
    (sched : List (String × List AssignRec)) :
    ∀ counts out, countSchedule pm sched counts = .ok out → counts.length = 6 →
      out.length = 6 ∧ out.sum = counts.sum + totalAssignments sched := by
  induction sched with
  | nil =>
    intro counts out h hlen
    cases h
    simp [hlen, totalAssignments]
  | cons e rest ih =>
    obtain ⟨slot, items⟩ := e
    intro counts out h hlen
    rw [countSchedule] at h
    cases hstep : countItems pm slot items counts with
    | error msg => rw [hstep] at h; cases h
    | ok c2 =>
      rw [hstep] at h
      obtain ⟨hlen2, hsum2⟩ := countItems_ok pm slot items counts c2 hstep hlen
      obtain ⟨h1, h2⟩ := ih c2 out h hlen2
      refine ⟨h1, ?_⟩
      rw [h2, hsum2]
      simp only [totalAssignments, List.map_cons, List.sum_cons]
      omega

theorem compute_breakdown_elim (sched : List (String × List AssignRec))
    (pm : List (String × List String)) (rows : List BRow)
    (h : compute_breakdown sched pm = .ok rows) :
    ∃ counts, countSchedule pm sched [0, 0, 0, 0, 0, 0] = .ok counts ∧
      rows = (BREAKDOWN_KEYS.zip counts).map
        (fun kc => ⟨kc.1, kc.2,
          if totalAssignments sched = 0 then 0
          else (kc.2 : Rat) / (totalAssignments sched : Rat) * 100⟩) := by
  unfold compute_breakdown at h
  cases hc : countSchedule pm sched [0, 0, 0, 0, 0, 0] with
  | error e => rw [hc] at h; cases h
  | ok counts =>
    rw [hc] at h
    have h2 : Except.ok ((BREAKDOWN_KEYS.zip counts).map
        (fun kc => (⟨kc.1, kc.2,
          if totalAssignments sched = 0 then 0
          else (kc.2 : Rat) / (totalAssignments sched : Rat) * 100⟩ : BRow))) =
        Except.ok rows := h
    cases h2
    exact ⟨counts, rfl, rfl⟩

/-! ## Helper lemmas: schedule extraction -/

theorem nameInItems_extract (vols : List String) (roles : List (String × String))
    (w : List ((String × String) × Nat)) (x : String → String → Bool) (s v : String)
    (hv : v ∈ vols) :
    nameInItems (((pyDedup vols).filter (fun u => x u s)).map
      (fun u => ⟨u, roleLookup roles u, weightLookup w u s == FALLBACK_WEIGHT⟩)) v = x v s := by
  cases hx : x v s with
  | true =>
    have hmem : v ∈ (pyDedup vols).filter (fun u => x u s) :=
      List.mem_filter.mpr ⟨(mem_pyDedup v vols).mpr hv, hx⟩
    refine List.any_eq_true.mpr ?_
    exact ⟨⟨v, roleLookup roles v, weightLookup w v s == FALLBACK_WEIGHT⟩,
      List.mem_map.mpr ⟨v, hmem, rfl⟩, by simp⟩
  | false =>
    refine List.any_eq_false.mpr ?_
    intro a ha
    obtain ⟨u, hu, rfl⟩ := List.mem_map.mp ha
    obtain ⟨hu1, hu2⟩ := List.mem_filter.mp hu
    intro hbe
    have he : u = v := beq_iff_eq.mp hbe
    rw [he] at hu2
    rw [hu2] at hx
    cases hx

theorem extract_shift_entry (vols : List String) (roles : List (String × String))
    (shifts : List String) (w : List ((String × String) × Nat)) (x : String → String → Bool)
    (p : String × List AssignRec) (hp : p ∈ extractSchedule vols roles shifts w x) :
    p.1 ∈ shifts ∧ p.2 = ((pyDedup vols).filter (fun u => x u p.1)).map
      (fun u => ⟨u, roleLookup roles u, weightLookup w u p.1 == FALLBACK_WEIGHT⟩) := by
  obtain ⟨s, hs, rfl⟩ := List.mem_map.mp hp
  exact ⟨hs, rfl⟩

/-! ## Claim C1: total coverage -/

/-- Claim C1: for every input table that `load_preferences` accepts and
whose shift universe is non-empty, any schedule returned by
`solve_schedule` assigns every volunteer to exactly one shift: each
volunteer's name appears in exactly one shift's assignment list, and no
volunteer is left unassigned. -/
theorem claim1_total_coverage (t : Table) (pd : LoadResult)
    (hload : load_preferences t = .ok pd) (hsh : pd.shifts ≠ [])
    (sched : List (String × List AssignRec))
    (hret : SolveReturns pd.volunteers pd.roles pd.shifts pd.weights sched) :
    coversAllOnce sched pd.volunteers = true := by
  obtain ⟨x, y, hfeas, hsched⟩ := hret
  subst hsched
  rw [coversAllOnce, List.all_eq_true]
  intro v hv
  have hone := hfeas.1 v hv
  have hcnt : assignedShiftCount
      (extractSchedule pd.volunteers pd.roles pd.shifts pd.weights x) v
      = pd.shifts.countP (fun s => x v s) := by
    rw [assignedShiftCount, extractSchedule, List.countP_map]
    refine List.countP_congr (fun s hs => ?_)
    simp only [Function.comp]
    rw [nameInItems_extract pd.volunteers pd.roles pd.weights x s v hv]
  refine beq_iff_eq.mpr ?_
  rw [hcnt]
  exact hone

/-- Witness for C1 at a concrete accepted table with a non-empty shift
universe and a concrete feasible assignment. -/
theorem claim1_total_coverage_witness :
    coversAllOnce schedOneVol (loadOk tblOneVol).volunteers = true :=
  claim1_total_coverage tblOneVol (loadOk tblOneVol) rfl (by decide)
    schedOneVol ⟨xOneVol, fun _ => false, by decide, rfl⟩

/-! ## Claim C3: capacity bound -/

/-- Claim C3: every schedule returned by `solve_schedule` puts at most
`MAX_PER_SHIFT = 3` volunteers into each shift's assignment list. -/
theorem claim3_capacity (vols : List String) (roles : List (String × String))
    (shifts : List String) (w : List ((String × String) × Nat))
    (sched : List (String × List AssignRec))
    (hret : SolveReturns vols roles shifts w sched) :
    capacityRespected sched = true := by
  obtain ⟨x, y, hfeas, hsched⟩ := hret
  subst hsched
  rw [capacityRespected, List.all_eq_true]
  intro p hp
  obtain ⟨hs, hitems⟩ := extract_shift_entry vols roles shifts w x p hp
  rw [hitems]
  simp only [decide_eq_true_eq, List.length_map]
  calc ((pyDedup vols).filter (fun u => x u p.1)).length
      = (pyDedup vols).countP (fun u => x u p.1) :=
        (List.countP_eq_length_filter _ _).symm
    _ ≤ vols.countP (fun u => x u p.1) := (pyDedup_sublist vols).countP_le _
    _ ≤ MAX_PER_SHIFT := hfeas.2.1 p.1 hs

/-- Witness for C3 at a concrete instance filling one shift to capacity. -/
theorem claim3_capacity_witness : capacityRespected schedThree = true :=
  claim3_capacity volsThree rolesThree shiftsOne [] schedThree
    ⟨xAllA, fun _ => false, by decide, rfl⟩

/-! ## Claim C2: mentor coverage -/

/-- Claim C2 counterexample: with one mentee and no mentor in the input,
`solve_schedule` can return a schedule whose shift "X" holds a mentee and
no mentor — the mentor-coverage property fails as stated, because the
constraint is only posted when both roles exist. -/
theorem claim2_mentor_coverage_cex :
    load_preferences tblLoneMentee = .ok (loadOk tblLoneMentee) ∧
    SolveReturns (loadOk tblLoneMentee).volunteers (loadOk tblLoneMentee).roles
      (loadOk tblLoneMentee).shifts (loadOk tblLoneMentee).weights schedLoneMentee ∧
    mentorCovered schedLoneMentee = false :=
  ⟨rfl, ⟨xLoneMentee, fun _ => false, by decide, rfl⟩, by decide⟩

/-- Claim C2 amended: provided at least one volunteer has role "mentor",
every schedule returned by `solve_schedule` gives every shift containing a
mentee at least one mentor. -/
theorem claim2_mentor_coverage_amended (vols : List String)
    (roles : List (String × String)) (shifts : List String)
    (w : List ((String × String) × Nat)) (sched : List (String × List AssignRec))
    (hm : mentorsOf vols roles ≠ [])
    (hret : SolveReturns vols roles shifts w sched) :
    mentorCovered sched = true := by
  obtain ⟨x, y, hfeas, hsched⟩ := hret
  subst hsched
  rw [mentorCovered, List.all_eq_true]
  intro p hp
  obtain ⟨hs, hitems⟩ := extract_shift_entry vols roles shifts w x p hp
  by_cases hme : p.2.any (fun a => a.Role == "mentee") = true
  · obtain ⟨a, ha, haR⟩ := List.any_eq_true.mp hme
    rw [hitems] at ha
    obtain ⟨u, hu, rfl⟩ := List.mem_map.mp ha
    obtain ⟨hu1, hu2⟩ := List.mem_filter.mp hu
    have huR : (roleLookup roles u == "mentee") = true := haR
    have humem : u ∈ menteesOf vols roles :=
      List.mem_filter.mpr ⟨(mem_pyDedup u vols).mp hu1, huR⟩
    have hmene : menteesOf vols roles ≠ [] := by
      intro he
      rw [he] at humem
      cases humem
    have htrip := hfeas.2.2 hmene hm p.1 hs
    have hcme : 0 < (menteesOf vols roles).countP (fun v2 => x v2 p.1) :=
      List.countP_pos_iff.mpr ⟨u, humem, hu2⟩
    have hy : y p.1 = true := by
      cases hys : y p.1
      · exfalso
        have h0 := htrip.2.1 hys
        omega
      · rfl
    have hm1 := htrip.2.2 hy
    obtain ⟨m, hmem2, hxm⟩ :=
      List.countP_pos_iff.mp (by omega : 0 < (mentorsOf vols roles).countP (fun v2 => x v2 p.1))
    obtain ⟨hmv, hmr⟩ := List.mem_filter.mp hmem2
    have hmrec : (⟨m, roleLookup roles m, weightLookup w m p.1 == FALLBACK_WEIGHT⟩ : AssignRec)
        ∈ p.2 := by
      rw [hitems]
      exact List.mem_map.mpr ⟨m, List.mem_filter.mpr ⟨(mem_pyDedup m vols).mpr hmv, hxm⟩, rfl⟩
    have hmor : p.2.any (fun a => a.Role == "mentor") = true :=
      List.any_eq_true.mpr ⟨_, hmrec, by simpa using hmr⟩
    simp [hme, hmor]
  · simp only [Bool.not_eq_true] at hme
    simp [hme]

/-- Witness for the amended C2 at a concrete mentor-mentee pair sharing a
shift. -/
theorem claim2_mentor_coverage_witness : mentorCovered schedPair = true :=
  claim2_mentor_coverage_amended (loadOk tblPair).volunteers (loadOk tblPair).roles
    (loadOk tblPair).shifts (loadOk tblPair).weights schedPair (by decide)
    ⟨xPair, fun s => s == "Y", by decide, rfl⟩

/-! ## Claim C4: Scenario C -/

/-- Claim C4 counterexample: for the Scenario C input (one mentee whose
sole preference is "X", no mentor listing "X", one mentor elsewhere and no
other mentor), the posted model is feasible — the mentee can be assigned
outside its preferences into the mentor's shift — so `solve_schedule` does
not raise the "no feasible schedule found" error for it. -/
theorem claim4_scenarioC_cex :
    load_preferences tblScenC = .ok (loadOk tblScenC) ∧
    ¬ SolveRaises (loadOk tblScenC).volunteers (loadOk tblScenC).roles
      (loadOk tblScenC).shifts :=
  ⟨rfl, fun hall => hall xScenC yScenC (by decide)⟩

/-- Claim C4 amended: for the Scenario C input the solve step succeeds and
can return the schedule in which the mentee is placed, as a fallback
assignment, into the mentor's shift "Y", satisfying mentor coverage; no
SolverError is raised. -/
theorem claim4_scenarioC_amended :
    load_preferences tblScenC = .ok (loadOk tblScenC) ∧
    SolveReturns (loadOk tblScenC).volunteers (loadOk tblScenC).roles
      (loadOk tblScenC).shifts (loadOk tblScenC).weights schedScenC ∧
    schedScenC = [("X", []), ("Y", [⟨"Mia", "mentee", true⟩, ⟨"Max", "mentor", false⟩])] :=
  ⟨rfl, ⟨xScenC, yScenC, by decide, rfl⟩, by decide⟩

/-! ## Claim C5: weight table values and monotonicity -/

/-- Claim C5 counterexample: a volunteer listing the same shift "A" at
ranks 1 and 2 gets weight 10000 for the pair, not the claimed exact value
100000 for a rank-1 entry (and the rank-1 > rank-2 comparison degenerates,
both ranks naming the same shift). -/
theorem claim5_weights_cex :
    load_preferences tblDupTwo = .ok (loadOk tblDupTwo) ∧
    dictGet (loadOk tblDupTwo).prefs_map "Ann" = some ["A", "A"] ∧
    dictGet (loadOk tblDupTwo).weights ("Ann", "A") = some 10000 ∧
    dictGet (loadOk tblDupTwo).weights ("Ann", "A") ≠ some 100000 :=
  ⟨rfl, rfl, rfl, by decide⟩

/-- Claim C5 amended: for a volunteer whose preference list repeats no
shift, each entry at 0-indexed position `i` receives weight
`LEX_WEIGHTS.get(i+1, FALLBACK_WEIGHT)` (so ranks 1-5 receive exactly
100000, 10000, 1000, 100, 10 and entries beyond rank 5 receive the
fallback weight), every shift of the universe outside the list receives
the fallback weight 1, and for consecutive entries with both ranks at most
5 the weight strictly decreases and strictly exceeds the fallback
weight. -/
theorem claim5_weights_amended (t : Table) (pd : LoadResult)
    (hload : load_preferences t = .ok pd) (name : String) (prefs : List String)
    (hpm : dictGet pd.prefs_map name = some prefs) (hnd : prefs.Nodup) :
    (∀ i s, prefs[i]? = some s →
      dictGet pd.weights (name, s) = some (lexGet (i + 1))) ∧
    (∀ s ∈ pd.shifts, s ∉ prefs →
      dictGet pd.weights (name, s) = some FALLBACK_WEIGHT) ∧
    (∀ i s1 s2, i + 2 ≤ 5 → prefs[i]? = some s1 → prefs[i + 1]? = some s2 →
      (dictGet pd.weights (name, s2)).getD 0 < (dictGet pd.weights (name, s1)).getD 0 ∧
      FALLBACK_WEIGHT < (dictGet pd.weights (name, s2)).getD 0) := by
  have hchar := load_weights_lookup t pd hload
  have hmemv := load_prefs_map_key_mem t pd hload name prefs hpm
  have entry : ∀ i s, prefs[i]? = some s →
      dictGet pd.weights (name, s) = some (lexGet (i + 1)) := by
    intro i s hi
    have hs : s ∈ prefs := mem_of_getElem_some prefs i s hi
    have hlast : lastIdxOf prefs s = i := lastIdxOf_nodup prefs hnd i s hi
    rw [hchar name s, hpm]
    simp [hs, hlast, Nat.add_comm]
  refine ⟨entry, ?_, ?_⟩
  · intro s hsin hnot
    rw [hchar name s, hpm]
    simp [hnot, hmemv, hsin]
  · intro i s1 s2 hle h1 h2
    rw [entry i s1 h1, entry (i + 1) s2 h2]
    simp only [Option.getD_some]
    have hi3 : i ≤ 3 := by omega
    interval_cases i <;> decide

/-- Witness for the amended C5 at a volunteer with duplicate-free
preferences [A, B]: rank 1 gets 100000 and rank 2 gets 10000. -/
theorem claim5_weights_witness :
    dictGet (loadOk tblNodup).weights ("Ben", "A") = some 100000 ∧
    dictGet (loadOk tblNodup).weights ("Ben", "B") = some 10000 :=
  ⟨(claim5_weights_amended tblNodup (loadOk tblNodup) rfl "Ben" ["A", "B"] rfl
      (by decide)).1 0 "A" rfl,
   (claim5_weights_amended tblNodup (loadOk tblNodup) rfl "Ben" ["A", "B"] rfl
      (by decide)).1 1 "B" rfl⟩

/-! ## Claim C9: duplicated preference entries -/

/-- Reduction of `breakdownStep` once the `prefs_map` lookup is known. -/
theorem breakdownStep_eq (pm : List (String × List String)) (slot : String) (a : AssignRec)
    (counts : List Nat) (prefs : List String) (hpm : dictGet pm a.Name = some prefs) :
    breakdownStep pm slot a counts =
      if slot ∈ prefs then
        if prefs.findIdx (fun p => p == slot) < 5 then
          .ok (bump counts (prefs.findIdx (fun p => p == slot)))
        else .error "KeyError: ord_map"
      else .ok (bump counts 5) := by
  unfold breakdownStep
  rw [hpm]

/-- Claim C9 counterexample: with the same shift listed at ranks 1, 2 and 3,
the pair (r1, r2) = (1, 2) satisfies the claim's hypotheses (both ranks at
most 5, r1 < r2), yet the stored weight is 1000 = LEX_WEIGHTS[3], not the
claimed LEX_WEIGHTS[r2] = 10000: only the very last occurrence survives
the dict overwrites. -/
theorem claim9_dup_prefs_cex :
    load_preferences tblDupThree = .ok (loadOk tblDupThree) ∧
    dictGet (loadOk tblDupThree).prefs_map "Bob" = some ["A", "A", "A"] ∧
    dictGet (loadOk tblDupThree).weights ("Bob", "A") = some 1000 ∧
    dictGet (loadOk tblDupThree).weights ("Bob", "A") ≠ some 10000 :=
  ⟨rfl, rfl, rfl, by decide⟩

/-- Claim C9 amended: when the preference list contains a shift at exactly
the two ranks r1 < r2 (both at most 5), the weight table keeps the later,
lower-weighted occurrence — `LEX_WEIGHTS[r2]` — while `compute_breakdown`
classifies an assignment to that shift by the first occurrence, bucket
r1. -/
theorem claim9_dup_prefs_amended (t : Table) (pd : LoadResult)
    (hload : load_preferences t = .ok pd) (name : String) (prefs : List String)
    (hpm : dictGet pd.prefs_map name = some prefs) (r1 r2 : Nat) (s : String)
    (h1 : 1 ≤ r1) (h12 : r1 < r2) (h25 : r2 ≤ 5)
    (hg1 : prefs[r1 - 1]? = some s) (hg2 : prefs[r2 - 1]? = some s)
    (honly : ∀ j, j < prefs.length → prefs[j]? = some s → j = r1 - 1 ∨ j = r2 - 1) :
    dictGet pd.weights (name, s) = some (lexGet r2) ∧
    prefs.findIdx (fun p => p == s) = r1 - 1 ∧
    ∀ counts (role : String) (fb : Bool),
      breakdownStep pd.prefs_map s ⟨name, role, fb⟩ counts = .ok (bump counts (r1 - 1)) := by
  have hchar := load_weights_lookup t pd hload
  have hs : s ∈ prefs := mem_of_getElem_some prefs (r1 - 1) s hg1
  have hspec := lastIdxOf_spec prefs s hs
  have hlastlen : lastIdxOf prefs s < prefs.length :=
    (List.getElem?_eq_some_iff.mp hspec.1).1
  have hlast : lastIdxOf prefs s = r2 - 1 := by
    rcases honly (lastIdxOf prefs s) hlastlen hspec.1 with he | he
    · have := hspec.2 (r2 - 1) hg2
      omega
    · exact he
  have hfind : prefs.findIdx (fun p => p == s) = r1 - 1 := by
    refine findIdx_first prefs s (r1 - 1) hg1 ?_
    intro j hj hjs
    have hjlen : j < prefs.length := (List.getElem?_eq_some_iff.mp hjs).1
    rcases honly j hjlen hjs with he | he <;> omega
  refine ⟨?_, hfind, ?_⟩
  · rw [hchar name s, hpm]
    simp only [hs, if_true]
    have harith : 1 + lastIdxOf prefs s = r2 := by omega
    rw [harith]
  · intro counts role fb
    rw [breakdownStep_eq pd.prefs_map s ⟨name, role, fb⟩ counts prefs hpm]
    have hlt : r1 - 1 < 5 := by omega
    simp [hs, hfind, hlt]

/-- Witness for the amended C9 at a volunteer listing "X" at exactly ranks
1 and 3: the weight is LEX_WEIGHTS[3] = 1000 while classification puts an
assignment to "X" into the rank-1 bucket. -/
theorem claim9_dup_prefs_witness :
    dictGet (loadOk tblTwoOcc).weights ("Cam", "X") = some (lexGet 3) ∧
    (["X", "B", "X"] : List String).findIdx (fun p => p == "X") = 0 ∧
    ∀ counts (role : String) (fb : Bool),
      breakdownStep (loadOk tblTwoOcc).prefs_map "X" ⟨"Cam", role, fb⟩ counts =
        .ok (bump counts 0) :=
  claim9_dup_prefs_amended tblTwoOcc (loadOk tblTwoOcc) rfl "Cam" ["X", "B", "X"] rfl
    1 3 "X" (by decide) (by decide) (by decide) rfl rfl (by decide)

/-! ## Claim C6: breakdown classification totality -/

/-- Claim C6 counterexample: for an assignment whose shift first occurs at
0-indexed position 5 of the volunteer's preference list, `ord_map[5]`
raises `KeyError`, so `compute_breakdown` is not defined on it — the
classification is not total in the position. -/
theorem claim6_breakdown_cex :
    compute_breakdown schedSixth pmSixth = .error "KeyError: ord_map" := rfl

/-- Claim C6 amended: `compute_breakdown` classifies an assignment whose
shift is outside the preference list into the fallback bucket and one
whose shift first occurs at 0-indexed position k ≤ 4 into the bucket of
rank k+1; for a first occurrence at position k ≥ 5 it raises `KeyError`
instead of classifying. -/
theorem claim6_breakdown_amended (pm : List (String × List String)) (slot : String)
    (a : AssignRec) (counts : List Nat) (prefs : List String)
    (hpm : dictGet pm a.Name = some prefs) :
    (slot ∉ prefs → breakdownStep pm slot a counts = .ok (bump counts 5)) ∧
    (slot ∈ prefs → prefs.findIdx (fun p => p == slot) < 5 →
      breakdownStep pm slot a counts =
        .ok (bump counts (prefs.findIdx (fun p => p == slot)))) ∧
    (slot ∈ prefs → 5 ≤ prefs.findIdx (fun p => p == slot) →
      breakdownStep pm slot a counts = .error "KeyError: ord_map") := by
  rw [breakdownStep_eq pm slot a counts prefs hpm]
  refine ⟨?_, ?_, ?_⟩
  · intro hnot
    simp [hnot]
  · intro hin hlt
    simp [hin, hlt]
  · intro hin hge
    simp [hin, Nat.not_lt.mpr hge]

/-- Witness for the amended C6 at the record whose shift is listed sixth:
the KeyError branch fires. -/
theorem claim6_breakdown_witness :
    ("X" ∉ (["a", "b", "c", "d", "e", "X"] : List String) →
      breakdownStep pmSixth "X" ⟨"Wyn", "volunteer", true⟩ [0, 0, 0, 0, 0, 0] =
        .ok (bump [0, 0, 0, 0, 0, 0] 5)) ∧
    ("X" ∈ (["a", "b", "c", "d", "e", "X"] : List String) →
      (["a", "b", "c", "d", "e", "X"] : List String).findIdx (fun p => p == "X") < 5 →
      breakdownStep pmSixth "X" ⟨"Wyn", "volunteer", true⟩ [0, 0, 0, 0, 0, 0] =
        .ok (bump [0, 0, 0, 0, 0, 0]
          ((["a", "b", "c", "d", "e", "X"] : List String).findIdx (fun p => p == "X")))) ∧
    ("X" ∈ (["a", "b", "c", "d", "e", "X"] : List String) →
      5 ≤ (["a", "b", "c", "d", "e", "X"] : List String).findIdx (fun p => p == "X") →
      breakdownStep pmSixth "X" ⟨"Wyn", "volunteer", true⟩ [0, 0, 0, 0, 0, 0] =
        .error "KeyError: ord_map") :=
  claim6_breakdown_amended pmSixth "X" ⟨"Wyn", "volunteer", true⟩ [0, 0, 0, 0, 0, 0]
    ["a", "b", "c", "d", "e", "X"] rfl

/-! ## Claim C7: breakdown conservation -/

/-- Claim C7: whenever `compute_breakdown` returns, the six bucket counts
sum to the number of assignment records of the schedule, and with zero
assignments every percentage is 0. -/
theorem claim7_conservation (sched : List (String × List AssignRec))
    (pm : List (String × List String)) (rows : List BRow)
    (h : compute_breakdown sched pm = .ok rows) :
    (rows.map (fun r => r.Count)).sum = totalAssignments sched ∧
    (totalAssignments sched = 0 → rows.all (fun r => r.Percentage == 0) = true) := by
  obtain ⟨counts, hc, hrows⟩ := compute_breakdown_elim sched pm rows h
  obtain ⟨hlen, hsum⟩ := countSchedule_ok pm sched [0, 0, 0, 0, 0, 0] counts hc (by decide)
  constructor
  · rw [hrows, List.map_map]
    have hfun : ((fun r : BRow => r.Count) ∘
        (fun kc : String × Nat => (⟨kc.1, kc.2,
          if totalAssignments sched = 0 then 0
          else (kc.2 : Rat) / (totalAssignments sched : Rat) * 100⟩ : BRow))) =
        Prod.snd := rfl
    rw [hfun, List.map_snd_zip BREAKDOWN_KEYS counts (by rw [hlen]; decide), hsum]
    simp
  · intro h0
    rw [hrows, List.all_eq_true]
    intro r hr
    obtain ⟨kc, hkc, rfl⟩ := List.mem_map.mp hr
    simp [h0]

/-- Witness for C7 at a one-assignment schedule on which
`compute_breakdown` succeeds. -/
theorem claim7_conservation_witness :
    (rowsSmall.map (fun r => r.Count)).sum = totalAssignments schedSmall ∧
    (totalAssignments schedSmall = 0 → rowsSmall.all (fun r => r.Percentage == 0) = true) :=
  claim7_conservation schedSmall pmSmall rowsSmall rfl

/-! ## Claims C8 and C10: load-time errors -/

theorem nameFnOf_isSome (t : Table) : (nameFnOf t.headers).isSome = nameResolvable t := by
  unfold nameFnOf nameResolvable
  by_cases h1 : ((colsLowerGet t.headers "first name").isSome &&
      (colsLowerGet t.headers "last name").isSome) = true
  · simp [h1]
  · by_cases h2 : ((colsLowerGet t.headers "firstname").isSome &&
        (colsLowerGet t.headers "lastname").isSome) = true
    · simp [h1, h2]
    · by_cases h3 : (colsLowerGet t.headers "name").isSome = true
      · simp [h1, h2, h3]
      · by_cases h4 : 2 ≤ t.headers.length
        · simp [h1, h2, h3, h4]
        · simp [h1, h2, h3, h4]

theorem load_preferences_cases (t : Table)
    (nameFn : List (Option String) → String) (hnf : nameFnOf t.headers = some nameFn) :
    (hasRoleCol t = false →
      load_preferences t = .error (.valueError "Missing 'Role' column.")) ∧
    (hasRoleCol t = true → hasPrefCols t = false →
      load_preferences t = .error (.valueError "No preference columns detected.")) ∧
    (hasRoleCol t = true → hasPrefCols t = true → ∃ r, load_preferences t = .ok r) := by
  refine ⟨?_, ?_, ?_⟩
  · intro hrole
    have hnone : colsLowerGet t.headers "role" = none := by
      cases hc : colsLowerGet t.headers "role" with
      | none => rfl
      | some rc =>
        unfold hasRoleCol at hrole
        rw [hc] at hrole
        cases hrole
    unfold load_preferences
    rw [hnf, hnone]
  · intro hrole hpc
    obtain ⟨rc, hrc⟩ := Option.isSome_iff_exists.mp (by unfold hasRoleCol at hrole; exact hrole)
    have hempty : (t.headers.filter isPrefCol).isEmpty = true := by
      have hall : ∀ c ∈ t.headers, ¬ isPrefCol c = true := by
        intro c hc
        have := List.any_eq_false.mp (by unfold hasPrefCols at hpc; exact hpc)
        exact this c hc
      rw [List.isEmpty_iff]
      exact List.filter_eq_nil_iff.mpr hall
    unfold load_preferences
    rw [hnf, hrc]
    simp only [hempty, if_true]
  · intro hrole hpc
    obtain ⟨rc, hrc⟩ := Option.isSome_iff_exists.mp (by unfold hasRoleCol at hrole; exact hrole)
    have hnempty : (t.headers.filter isPrefCol).isEmpty = false := by
      obtain ⟨c, hc, hcp⟩ := List.any_eq_true.mp (by unfold hasPrefCols at hpc; exact hpc)
      cases hfe : (t.headers.filter isPrefCol).isEmpty with
      | false => rfl
      | true =>
        rw [List.isEmpty_iff] at hfe
        have : c ∈ t.headers.filter isPrefCol := List.mem_filter.mpr ⟨hc, hcp⟩
        rw [hfe] at this
        cases this
    unfold load_preferences
    rw [hnf, hrc]
    simp only [hnempty, Bool.false_eq_true, if_false]
    exact ⟨_, rfl⟩

/-- Claim C8 counterexample: a table with only a "Role" column has no
preference columns, so by the claimed equivalence it should raise the
"DataError" `ValueError`; instead the positional name fallback raises
`IndexError` first, so a non-DataError failure occurs. -/
theorem claim8_dataerror_cex :
    load_preferences tblRoleOnly = .error .indexError ∧
    hasPrefCols tblRoleOnly = false ∧
    isValueError (load_preferences tblRoleOnly) = false :=
  ⟨rfl, rfl, rfl⟩

/-- Claim C8 amended: restricted to tables whose name-resolution step
succeeds (a recognized name header combination, or at least two columns),
`load_preferences` raises `ValueError` ("DataError") exactly when the role
column or the preference columns are missing, and succeeds otherwise; for
the remaining tables the name fallback fails with `IndexError` instead
(claim C10). -/
theorem claim8_dataerror_amended (t : Table) (hn : nameResolvable t = true) :
    (isValueError (load_preferences t) = true ↔
      (hasRoleCol t = false ∨ hasPrefCols t = false)) ∧
    (hasRoleCol t = true → hasPrefCols t = true → ∃ r, load_preferences t = .ok r) := by
  have hsome : (nameFnOf t.headers).isSome = true := by rw [nameFnOf_isSome]; exact hn
  obtain ⟨nameFn, hnf⟩ := Option.isSome_iff_exists.mp hsome
  obtain ⟨hcase1, hcase2, hcase3⟩ := load_preferences_cases t nameFn hnf
  refine ⟨⟨?_, ?_⟩, hcase3⟩
  · intro hve
    by_cases hrole : hasRoleCol t = true
    · by_cases hpc : hasPrefCols t = true
      · obtain ⟨r, hr⟩ := hcase3 hrole hpc
        rw [hr] at hve
        simp [isValueError] at hve
      · exact Or.inr (by simpa using hpc)
    · exact Or.inl (by simpa using hrole)
  · intro hor
    rcases hor with hr | hp
    · rw [hcase1 hr]
      rfl
    · by_cases hrole : hasRoleCol t = true
      · rw [hcase2 hrole hp]
        rfl
      · rw [hcase1 (by simpa using hrole)]
        rfl

/-- Witness for the amended C8 at a well-formed table: the equivalence and
the success case hold there. -/
theorem claim8_dataerror_witness :
    (isValueError (load_preferences tblGood) = true ↔
      (hasRoleCol tblGood = false ∨ hasPrefCols tblGood = false)) ∧
    (hasRoleCol tblGood = true → hasPrefCols tblGood = true →
      ∃ r, load_preferences tblGood = .ok r) :=
  claim8_dataerror_amended tblGood rfl

/-- Claim C10: on a table with no recognized name header combination and
fewer than two columns (that is, `nameResolvable` is false — the positional
fallback `df.iloc[:, 1]` is out of bounds), `load_preferences` fails with
`IndexError` before the role-column check, so no missing-role `ValueError`
is ever produced for such a table. -/
theorem claim10_indexerror (t : Table) (hn : nameResolvable t = false) :
    load_preferences t = .error .indexError ∧
    isValueError (load_preferences t) = false := by
  have hnone : nameFnOf t.headers = none := by
    cases hc : nameFnOf t.headers with
    | none => rfl
    | some f =>
      have : (nameFnOf t.headers).isSome = true := by rw [hc]; rfl
      rw [nameFnOf_isSome, hn] at this
      cases this
  constructor
  · unfold load_preferences
    rw [hnone]
  · unfold load_preferences
    rw [hnone]
    rfl

/-- Witness for C10 at a one-column table with an unrecognized header. -/
theorem claim10_indexerror_witness :
    load_preferences tblOneCol = .error .indexError ∧
    isValueError (load_preferences tblOneCol) = false :=
  claim10_indexerror tblOneCol rfl
